import Mathlib

/-!
Verification of the isobmff MP4-to-FLV converter (src/isobmff.h, src/flv.h,
src/mp4toflv.cpp) against its natural-language specification.

Shallow embedding conventions:
* Machine integers are modelled as `Nat`.  Where a C++ `uint32_t`
  multiplication can overflow we keep the truncation explicit with `% 2 ^ 32`;
  where the source subtracts unsigned values that cannot underflow under the
  stated hypotheses we use truncated `Nat` subtraction.
* The C++ expression `(a << 24) | (b << 16) | (c << 8) | d` over distinct byte
  fields is modelled as `a * 2^24 + b * 2^16 + c * 2^8 + d`: for byte values the
  or-ed fields are disjoint, so bitwise or coincides with addition.  The one
  place where the source or-s two *overlapping* 32-bit values
  (`FullBufBox::ui64`) is modelled with genuine bitwise or `|||`.
* Byte streams are `List Nat`; an in-bounds read of byte `p` is `l.getD p 0`
  (reads past the end, which are out-of-bounds in the C++ `std::vector`,
  default to 0 in the model and are flagged where they matter).
* Run-length tables (stts, stsc, ctts) are modelled as lists of entries, entry
  `i` of the list being the pair that the source reads with its `ui32`
  accessors at stride `i` (e.g. `(count(i), delta(i))` for `BoxSTTS`).
-/

/-- Read one byte at position `p` of a byte stream (out of bounds gives 0). -/
def byteAt (d : List Nat) (p : Nat) : Nat := d.getD p 0

/-- Big-endian 32-bit read at `p`, as in `read32` / `FullBufBox::ui32`:
`(b0 << 24) | (b1 << 16) | (b2 << 8) | b3` over bytes, written additively. -/
def be32At (d : List Nat) (p : Nat) : Nat :=
  byteAt d p * 2 ^ 24 + byteAt d (p + 1) * 2 ^ 16 + byteAt d (p + 2) * 2 ^ 8 +
    byteAt d (p + 3)

/-- Big-endian 24-bit read at `p`, as in `read24`. -/
def be24At (d : List Nat) (p : Nat) : Nat :=
  byteAt d p * 2 ^ 16 + byteAt d (p + 1) * 2 ^ 8 + byteAt d (p + 2)

/-- Bytes emitted by `write32`: each `char` truncates its argument mod 256. -/
def write32 (d : Nat) : List Nat :=
  [d / 2 ^ 24 % 256, d / 2 ^ 16 % 256, d / 2 ^ 8 % 256, d % 256]

/-- Bytes emitted by `write24`. -/
def write24 (d : Nat) : List Nat :=
  [d / 2 ^ 16 % 256, d / 2 ^ 8 % 256, d % 256]

/-!
## BoxSTTS: decode-time run table (isobmff.h, `sampleToTime`)

The source loop, with `entries` the list of `(count(i), delta(i))` pairs:

    uint64_t sampleToTime(uint32_t n) const {
        uint32_t c = count();
        uint64_t t = 0;
        for (uint32_t i = 0; i<c; i++) {
            if (n < count(i)) return t + n * delta(i);
            n -= count(i);
            t += count(i) * delta(i);
        }
        return t;
    }

Both products are computed in `uint32_t` (hence `% 2 ^ 32`) before being added
to the `uint64_t` accumulator `t`; `t` itself cannot overflow 64 bits because
there are fewer than `2^32` runs each contributing less than `2^32`.
-/

/-- The loop of `BoxSTTS::sampleToTime`, with accumulator `t`. -/
def sttsLoop : List (Nat × Nat) → Nat → Nat → Nat
  | [], _, t => t
  | (c, d) :: rest, n, t =>
    if n < c then t + n * d % 2 ^ 32
    else sttsLoop rest (n - c) (t + c * d % 2 ^ 32)

/-- `BoxSTTS::sampleToTime` over the entry list. -/
def sampleToTime (entries : List (Nat × Nat)) (n : Nat) : Nat :=
  sttsLoop entries n 0

/-- The specification's decode-time formula: the sum of `count_i * delta_i`
over every run fully preceding `n`, plus the partial contribution of the run
containing `n` (exact mathematical arithmetic, no truncation). -/
def specDecodeTime : List (Nat × Nat) → Nat → Nat
  | [], _ => 0
  | (c, d) :: rest, n =>
    if n < c then n * d else c * d + specDecodeTime rest (n - c)

/-- Total number of samples covered by a decode-time run table. -/
def totalCount (entries : List (Nat × Nat)) : Nat :=
  (entries.map Prod.fst).sum

/-- Total decode duration of a decode-time run table. -/
def totalDuration (entries : List (Nat × Nat)) : Nat :=
  (entries.map (fun e => e.1 * e.2)).sum

/-!
## BoxSTSC: chunk-run table (isobmff.h, `sampleToChunk`)

The source loop, with `entries` the list of `(first(i), spc(i))` pairs:

    uint32_t sampleToChunk(int n) const {
        uint32_t c = count();
        uint32_t ofs = 0;
        uint32_t ch = 1;
        uint32_t lch = 1;
        uint32_t lspc = 1;
        for (uint32_t i = 0; i<c; i++) {
            ofs += (first(i) - lch) * lspc;
            if (n < ofs) break;
            ch = first(i) + (n - ofs) / spc(i);
            lspc = spc(i);
            lch = first(i);
        }
        return ch - 1;
    }

All state is `uint32_t`: the accumulations `ofs += (first(i) - lch) * lspc`
and `ch = first(i) + (n - ofs) / spc(i)` wrap mod `2 ^ 32`, and the final
`ch - 1` is a wrapping decrement — all made explicit below.  Under the
ascending-runs hypothesis the subtractions `first(i) - lch` and `n - ofs`
(the latter guarded by `n < ofs`) never underflow, so truncated `Nat`
subtraction coincides with the `uint32_t` arithmetic there; the wraps of the
additive accumulator and of the chunk number are kept.
-/

/-- The loop of `BoxSTSC::sampleToChunk`, with `uint32_t` state
`(ofs, ch, lch, lspc)`: both `ofs` and `ch` updates truncate mod `2 ^ 32`. -/
def stscLoop : List (Nat × Nat) → Nat → Nat → Nat → Nat → Nat → Nat
  | [], _, _, ch, _, _ => ch
  | (f, s) :: rest, n, ofs, ch, lch, lspc =>
    if n < (ofs + (f - lch) * lspc) % 2 ^ 32 then ch
    else
      stscLoop rest n ((ofs + (f - lch) * lspc) % 2 ^ 32)
        ((f + (n - (ofs + (f - lch) * lspc) % 2 ^ 32) / s) % 2 ^ 32) f s

/-- `BoxSTSC::sampleToChunk` over the entry list: the trailing `return
ch - 1` is the wrapping `uint32_t` decrement, written `+ (2^32 - 1)` mod
`2^32`. -/
def sampleToChunk (entries : List (Nat × Nat)) (n : Nat) : Nat :=
  (stscLoop entries n 0 1 1 1 + (2 ^ 32 - 1)) % 2 ^ 32

/-- Number of samples covered by the closed (non-final) runs of a chunk-run
table: `(first_{i+1} - first_i) * spc_i` summed over consecutive pairs.  When
this reaches `2 ^ 32` the source's `uint32_t` accumulator `ofs` wraps. -/
def closedSpans : List (Nat × Nat) → Nat
  | [] => 0
  | [_] => 0
  | (f, s) :: (f', s') :: rest => (f' - f) * s + closedSpans ((f', s') :: rest)

/-- Run-length semantics of the chunk-run table, from the claim: run `i` spans
`first_{i+1} - first_i` chunks each holding `spc_i` samples, the last run being
open-ended; the result is the 0-based index of the chunk containing sample
`n`. -/
def chunkOfSample : List (Nat × Nat) → Nat → Nat
  | [], _ => 0
  | [(f, s)], n => (f - 1) + n / s
  | (f, s) :: (f', s') :: rest, n =>
    if n < (f' - f) * s then (f - 1) + n / s
    else chunkOfSample ((f', s') :: rest) (n - (f' - f) * s)

/-- The first-chunk fields of a chunk-run table are strictly ascending. -/
def ascendingRuns : List (Nat × Nat) → Bool
  | [] => true
  | [_] => true
  | a :: b :: l => decide (a.1 < b.1) && ascendingRuns (b :: l)

/-!
## Box tree decoder cursor positions (isobmff.h, `BoxSimpleList::parse`)

`BoxSimpleList::parse` reads each child's 4-byte size and 4-byte type and
dispatches to `createBox`; the *next* sibling header is read wherever the
child's own `parse` left the cursor — there is no per-child reseek (the only
explicit seek, `is.seekg(pos)`, runs once after the loop, at the container's
own end).  `createBoxEnd t d start sz` is the cursor position after the child
decoder selected for type `t` returns, where `start` is the child's box start
(the header was read at `start`, so each decoder begins at `start + 8`), or
`none` when the selected decoder leaves the well-defined path — a declared
size below what its constructor or parse subtracts makes the `size_t`
arithmetic wrap (`body.resize(sz - 8)` / `buf.resize(sz - 12)` /
`buf.resize(sz - 36)` throw `std::length_error`; `BoxFTYP`'s
`(size - 16) / 4` entry count and a container's `tellg + size - 8` end offset
wrap), aborting the parse:
* `BoxFTYP::parse` (needs `sz ≥ 16`) seeks `start + 8 + (sz - 8)` explicitly;
* `BoxFREE::parse` / `UnknownBox::parse` (needs `sz ≥ 8`) read `sz - 8`
  payload bytes;
* `BoxMVHD::parse` reads version/flags (cursor `start + 12`) and returns
  early if `version != 0` (no buffer is touched, any `sz`); for version 0 it
  resizes to and reads a `sz - 36` byte tail (needs `sz ≥ 36`) after six
  32-bit fields;
* the `FullBufBox` leaves resize to `sz - 12` in their constructor (needs
  `sz ≥ 12`), then read version/flags and the payload;
* a container (`has_child`, needs `sz ≥ 8`) ends with its explicit seek to
  `start + sz`;
* `UnknownBoxRef::parse` (declared size above the 10 MiB threshold, hence
  `≥ 8`; nothing is resized) seeks `start + 8 + (sz - 8)`.
Types are the 4 ASCII byte codes of the source's constants.
-/

/-- Four-character code "ftyp". -/
def BOX_FTYP : List Nat := [102, 116, 121, 112]

/-- Four-character code "free". -/
def BOX_FREE : List Nat := [102, 114, 101, 101]

/-- Four-character code "mvhd". -/
def BOX_MVHD : List Nat := [109, 118, 104, 100]

/-- Four-character code "mdhd". -/
def BOX_MDHD : List Nat := [109, 100, 104, 100]

/-- Four-character code "tkhd". -/
def BOX_TKHD : List Nat := [116, 107, 104, 100]

/-- Four-character code "hdlr". -/
def BOX_HDLR : List Nat := [104, 100, 108, 114]

/-- Four-character code "stsc". -/
def BOX_STSC : List Nat := [115, 116, 115, 99]

/-- Four-character code "stsd". -/
def BOX_STSD : List Nat := [115, 116, 115, 100]

/-- Four-character code "stss". -/
def BOX_STSS : List Nat := [115, 116, 115, 115]

/-- Four-character code "stsz". -/
def BOX_STSZ : List Nat := [115, 116, 115, 122]

/-- Four-character code "stco". -/
def BOX_STCO : List Nat := [115, 116, 99, 111]

/-- Four-character code "stts". -/
def BOX_STTS : List Nat := [115, 116, 116, 115]

/-- Four-character code "ctts". -/
def BOX_CTTS : List Nat := [99, 116, 116, 115]

/-- Four-character code "moov". -/
def BOX_MOOV : List Nat := [109, 111, 111, 118]

/-- Four-character code "trak". -/
def BOX_TRAK : List Nat := [116, 114, 97, 107]

/-- Four-character code "dts\0". -/
def BOX_DTS : List Nat := [100, 116, 115, 0]

/-- Four-character code "mdia". -/
def BOX_MDIA : List Nat := [109, 100, 105, 97]

/-- Four-character code "minf". -/
def BOX_MINF : List Nat := [109, 105, 110, 102]

/-- Four-character code "stbl". -/
def BOX_STBL : List Nat := [115, 116, 98, 108]

/-- Four-character code "udta". -/
def BOX_UDTA : List Nat := [117, 100, 116, 97]

/-- The container predicate `has_child` of isobmff.h. -/
def has_child (t : List Nat) : Bool :=
  t == BOX_MOOV || t == BOX_TRAK || t == BOX_DTS || t == BOX_MDIA ||
    t == BOX_MINF || t == BOX_STBL || t == BOX_UDTA

/-- The ten leaf types decoded through `FullBufBox` in `createBox`. -/
def isFullBufType (t : List Nat) : Bool :=
  t == BOX_MDHD || t == BOX_TKHD || t == BOX_HDLR || t == BOX_STSC ||
    t == BOX_STSD || t == BOX_STSS || t == BOX_STSZ || t == BOX_STCO ||
    t == BOX_STTS || t == BOX_CTTS

/-- Cursor position after the child decoder that `createBox` selects for type
`t` returns, for a child whose header starts at `start` with declared size
`sz`, over stream bytes `d` (dispatch order as in the source); `none` when
the decoder's `size_t` arithmetic wraps and the parse aborts instead of
returning (see the section comment for the per-branch thresholds). -/
def createBoxEnd (t : List Nat) (d : List Nat) (start sz : Nat) : Option Nat :=
  if t = BOX_FTYP then
    if 16 ≤ sz then some (start + 8 + (sz - 8)) else none
  else if t = BOX_FREE then
    if 8 ≤ sz then some (start + 8 + (sz - 8)) else none
  else if t = BOX_MVHD then
    if byteAt d (start + 8) = 0 then
      if 36 ≤ sz then some (start + 36 + (sz - 36)) else none
    else some (start + 12)
  else if isFullBufType t then
    if 12 ≤ sz then some (start + 12 + (sz - 12)) else none
  else if has_child t then
    if 8 ≤ sz then some (start + 8 + (sz - 8)) else none
  else if 1024 * 1024 * 10 < sz then some (start + 8 + (sz - 8))
  else if 8 ≤ sz then some (start + 8 + (sz - 8)) else none

/-- The 4-byte type tag read at position `p`. -/
def typeAt (d : List Nat) (p : Nat) : List Nat :=
  [byteAt d p, byteAt d (p + 1), byteAt d (p + 2), byteAt d (p + 3)]

/-- The positions at which `BoxSimpleList::parse` reads successive child
headers: starting at `cur`, while `cur < endPos`, it reads the 4-byte size
and 4-byte type at `cur`, then continues at the position where that child's
decoder left the cursor — or stops if that decoder aborts
(`createBoxEnd = none`: the header at the failing child was still read, but
no further one is).  `fuel` bounds the iteration; the source loop is also cut
short by end-of-stream, which the concrete inputs below never reach. -/
def childHeaderStarts (d : List Nat) : Nat → Nat → Nat → List Nat
  | 0, _, _ => []
  | fuel + 1, cur, endPos =>
    if cur < endPos then
      cur ::
        (match createBoxEnd (typeAt d (cur + 4)) d cur (be32At d cur) with
          | some nxt => childHeaderStarts d fuel nxt endPos
          | none => [])
    else []

/-- A "moov" container (size 48) holding an mvhd child of declared size 32
with version 1, followed by a sibling "free" box of size 8 at offset 40.
The mvhd payload bytes at offsets 20..39 are themselves shaped as a
well-formed "free" box of declared size 20, so every header the desynced
traversal reads selects a decoder that completes normally. -/
def mvhdV1Demo : List Nat :=
  [0, 0, 0, 48, 109, 111, 111, 118,
   0, 0, 0, 32, 109, 118, 104, 100,
   1, 0, 0, 0,
   0, 0, 0, 20, 102, 114, 101, 101] ++ List.replicate 12 0 ++
    [0, 0, 0, 8, 102, 114, 101, 101]

/-!
## NAL keyframe classifier (mp4toflv.cpp, IDR scan loop)

    uint32_t p = 0;
    bool rap = false;
    while (p+5 < buf.size()) {
        uint32_t sz = (buf[p] << 24) | (buf[p+1] << 16) | (buf[p+2] << 8) | buf[p+3];
        if ((buf[p+4]&0x1f) == 5) rap = true;
        p += sz + 4;
    }

`& 0x1f` on a byte is `% 32`.  The guard `p + 5 < buf.size()` admits a unit
only when *strictly more than* 5 bytes remain at the cursor.  The flag `rap`
or-accumulates the per-unit test, which is the disjunction below (the source
keeps scanning after a hit; the accumulated value is the same).
-/

/-- The IDR scan loop of mp4toflv.cpp: `true` iff the scan starting at `p`
sets `rap`. -/
def nalScan (buf : List Nat) (p : Nat) : Bool :=
  if h : p + 5 < buf.length then
    (byteAt buf (p + 4) % 32 == 5) || nalScan buf (p + be32At buf p + 4)
  else false
termination_by buf.length - p
decreasing_by omega

/-- The classifier as the claim words it: a unit is read whenever 5 or more
bytes remain at the cursor (`p + 5 ≤ buf.length`), classified by
`payload[4] & 0x1f`, advancing by `length + 4`. -/
def nalScanSpec (buf : List Nat) (p : Nat) : Bool :=
  if h : p + 5 ≤ buf.length then
    (byteAt buf (p + 4) % 32 == 5) || nalScanSpec buf (p + be32At buf p + 4)
  else false
termination_by buf.length - p
decreasing_by omega

/-- The list of unit types the source's scan actually visits (one entry per
loop iteration, under the source's `p + 5 < buf.size()` guard). -/
def nalUnitTypes (buf : List Nat) (p : Nat) : List Nat :=
  if h : p + 5 < buf.length then
    byteAt buf (p + 4) % 32 :: nalUnitTypes buf (p + be32At buf p + 4)
  else []
termination_by buf.length - p
decreasing_by omega

/-!
## Remux pipeline output framing (mp4toflv.cpp)

The emission pass writes: the 9-byte FLV header, a 4-byte zero previous-tag
size (output position 13), then one sequence-header video tag and one video
tag per sample.  A tag is an 11-byte tag header plus its payload (1 frame
byte, 1 AVC packet-type byte, 3-byte composition offset, then `cs` config
bytes or the `L` sample bytes), so each tag is `16 + cs` resp. `16 + L` bytes
long.  After each tag the source runs

    write32(of, (uint32_t)of.tellp() - prev);
    prev = of.tellp();

with `size_t prev = 0;` declared before the FLV header is written and never
updated before the first trailer.
-/

/-- Sample-tag emission from output position `pos` with back-pointer base
`prev`: returns one `(tag length, trailer value)` pair per sample payload
size. -/
def sampleTagRecords : Nat → Nat → List Nat → List (Nat × Nat)
  | _, _, [] => []
  | pos, prev, L :: rest =>
    (16 + L, pos + 16 + L - prev) ::
      sampleTagRecords (pos + 16 + L + 4) (pos + 16 + L + 4) rest

/-- The `(tag length, trailer value)` pairs for the whole pass: the
sequence-header tag (written at position 13 with `prev` still 0) followed by
the sample tags. -/
def remuxTagRecords (cs : Nat) (sizes : List Nat) : List (Nat × Nat) :=
  (16 + cs, 13 + 16 + cs - 0) ::
    sampleTagRecords (13 + 16 + cs + 4) (13 + 16 + cs + 4) sizes

/-!
## BoxSTSZ sample sizes and their use by the pipeline

`BoxSTSZ` exposes `constantSize() = ui32(0)`, `count() = ui32(4)` and
`size(pos) = ui32(8 + pos*4)` over its stored payload.  The remux loop sizes
and advances with `stsz->size(i)` unconditionally:

    buf.resize(stsz->size(i));
    ...
    offset += stsz->size(i); // update offset in chunk.
-/

/-- `BoxSTSZ::constantSize` over the stored payload. -/
def stszConstantSize (buf : List Nat) : Nat := be32At buf 0

/-- `BoxSTSZ::count` over the stored payload. -/
def stszCount (buf : List Nat) : Nat := be32At buf 4

/-- `BoxSTSZ::size` over the stored payload. -/
def stszSize (buf : List Nat) (pos : Nat) : Nat := be32At buf (8 + pos * 4)

/-- The byte length mp4toflv.cpp uses for sample `i`: always `stsz->size(i)`,
never `constantSize()`. -/
def sampleLength (stszPayload : List Nat) (i : Nat) : Nat :=
  stszSize stszPayload i

/-- A uniform sample-size table: constant size 10, count 2.  As the format
prescribes for a nonzero constant size, no per-sample array follows — the
payload is exactly 8 bytes. -/
def stszUniformDemo : List Nat := [0, 0, 0, 10, 0, 0, 0, 2]

/-!
## FullBufBox::ui64 and BoxMDHD::duration (isobmff.h)

    uint64_t ui64(int pos) const {
        uint64_t h = ui32(pos);
        return h | ui32(pos+4);
    }

The high word is or-ed with the low word with no `<< 32` shift (contrast
`read64` in the same header, which computes `(h << 32) | read32(is)`).  Since
the two 32-bit values overlap, this is a genuine bitwise or.
-/

/-- `FullBufBox::ui64` over the stored payload. -/
def ui64 (buf : List Nat) (pos : Nat) : Nat :=
  be32At buf pos ||| be32At buf (pos + 4)

/-- `BoxMDHD::duration()`: `ui32(12)` for version 0, `ui64(20)` otherwise. -/
def mdhdDuration (version : Nat) (buf : List Nat) : Nat :=
  if version = 0 then be32At buf 12 else ui64 buf 20

/-- A version-1 mdhd payload: 8-byte creation and modification times (zero),
32-bit timescale 1000, then the 64-bit duration with high word 1 and low
word 2. -/
def mdhdV1DurDemo : List Nat :=
  List.replicate 16 0 ++ [0, 0, 3, 232] ++ [0, 0, 0, 1, 0, 0, 0, 2]

/-!
## UnknownBoxRef::write (isobmff.h)

    virtual void write(std::ostream &os) const {
        // TODO:
    }

The override for an opaque-skipped node is an empty TODO stub: it returns
normally, emits nothing, and has no error channel of any kind.
-/

/-- Four-character code "mdat". -/
def BOX_MDAT : List Nat := [109, 100, 97, 116]

/-- Bytes emitted by `UnknownBoxRef::write` for a node with declared size
`sz`, type `typ` and recorded source offset `offset`: none, unconditionally,
and no error is signaled (a signaled condition would surface as a non-`unit`
result; the C++ body is empty). -/
def unknownBoxRefWrite (sz : Nat) (typ : List Nat) (offset : Nat) : List Nat :=
  []

/-!
## Box round trips (isobmff.h: UnknownBox, FullBufBox, BoxFTYP)

Each decode-then-write pipeline takes the original byte sequence `bs` of one
box (header included, `bs.length` = declared size) and produces the bytes
that `write` emits for the node `parse` built from `bs`:
* `UnknownBox`: `parse` stores the `sz - 8` payload bytes; `write` emits the
  4-byte size, the 4-byte type, then — when `size > 8` — the stored body.
* `FullBufBox`: `parse` reads the version byte, the 24-bit flags and the
  `sz - 12` byte payload; `write` re-emits size, type, version, flags, then —
  when `size > 8` — the payload.
* `BoxFTYP`: `parse` reads `major` (4 raw bytes), `minor` (big-endian 32-bit)
  and `(sz - 16) / 4` compatibility entries of 4 raw bytes each, seeking to
  the box end; `write` emits size, type, `major`, `minor` and the entries —
  so any trailing `sz - 16 mod 4` bytes of the payload are dropped.
-/

/-- `UnknownBox` decode followed by `write`, over the original box bytes. -/
def unknownDecodeThenWrite (bs : List Nat) : List Nat :=
  write32 (be32At bs 0) ++ (bs.drop 4).take 4 ++
    (if 8 < be32At bs 0 then (bs.drop 8).take (be32At bs 0 - 8) else [])

/-- `FullBufBox` decode followed by `write`, over the original box bytes. -/
def fullBufDecodeThenWrite (bs : List Nat) : List Nat :=
  write32 (be32At bs 0) ++ (bs.drop 4).take 4 ++ [byteAt bs 8] ++
    write24 (be24At bs 9) ++
    (if 8 < be32At bs 0 then (bs.drop 12).take (be32At bs 0 - 12) else [])

/-- `BoxFTYP` decode followed by `write`, over the original box bytes. -/
def ftypDecodeThenWrite (bs : List Nat) : List Nat :=
  write32 (be32At bs 0) ++ (bs.drop 4).take 4 ++ (bs.drop 8).take 4 ++
    write32 (be32At bs 12) ++
    (bs.drop 16).take (4 * ((be32At bs 0 - 16) / 4))

/-- An ftyp box of declared size 18: major brand "mp42", minor version 1, and
two trailing payload bytes `7, 7` that do not fill a 4-byte compatibility
entry. -/
def ftyp18Demo : List Nat :=
  [0, 0, 0, 18, 102, 116, 121, 112, 109, 112, 52, 50, 0, 0, 0, 1, 7, 7]

theorem sttsLoop_eq_specDecodeTime (entries : List (Nat × Nat)) :
    ∀ n t, (∀ e ∈ entries, e.1 * e.2 < 2 ^ 32) →
      sttsLoop entries n t = t + specDecodeTime entries n := by
  induction entries with
  | nil => intro n t _; simp [sttsLoop, specDecodeTime]
  | cons e rest ih =>
    intro n t h
    obtain ⟨c, d⟩ := e
    have hcd : c * d < 2 ^ 32 := h (c, d) (List.mem_cons_self _ _)
    by_cases hn : n < c
    · have hnd : n * d < 2 ^ 32 :=
        lt_of_le_of_lt (Nat.mul_le_mul_right d (Nat.le_of_lt hn)) hcd
      simp only [sttsLoop, specDecodeTime, hn, if_true]
      omega
    · have hrest : ∀ e ∈ rest, e.1 * e.2 < 2 ^ 32 := by
        intro e he; exact h e (List.mem_cons_of_mem _ he)
      simp only [sttsLoop, specDecodeTime, hn, if_false]
      rw [ih (n - c) (t + c * d % 2 ^ 32) hrest, Nat.mod_eq_of_lt hcd]
      omega

theorem specDecodeTime_of_total_le (entries : List (Nat × Nat)) :
    ∀ n, totalCount entries ≤ n → specDecodeTime entries n = totalDuration entries := by
  induction entries with
  | nil => intro n _; simp [specDecodeTime, totalDuration]
  | cons e rest ih =>
    intro n hn
    obtain ⟨c, d⟩ := e
    simp only [totalCount, List.map_cons, List.sum_cons] at hn
    have hnc : ¬ n < c := by omega
    have : totalCount rest ≤ n - c := by simp only [totalCount]; omega
    simp [specDecodeTime, hnc, totalDuration, ih (n - c) this]

/-- C3: for every decode-time run table (whose per-run products fit in 32 bits,
as the source computes them in `uint32_t`) and every sample index below the
total sample count, `sampleToTime` returns the sum of `count_i * delta_i` over
the runs fully preceding `n` plus `(n - samplesConsumed) * delta` of the run
containing `n` (the formula `specDecodeTime`). -/
theorem sampleToTime_runSum (entries : List (Nat × Nat)) (n : Nat)
    (hfit : ∀ e ∈ entries, e.1 * e.2 < 2 ^ 32)
    (hn : n < totalCount entries) :
    sampleToTime entries n = specDecodeTime entries n := by
  have := sttsLoop_eq_specDecodeTime entries n 0 hfit
  simpa [sampleToTime] using this

/-- Witness for C3 at the specification's example `{(3,1000),(2,500)}`:
`sampleToTime` agrees with the run-sum formula at `n = 4`, and the concrete
values of the example hold. -/
theorem sampleToTime_runSum_witness :
    sampleToTime [(3, 1000), (2, 500)] 4 = specDecodeTime [(3, 1000), (2, 500)] 4 ∧
      sampleToTime [(3, 1000), (2, 500)] 0 = 0 ∧
      sampleToTime [(3, 1000), (2, 500)] 2 = 2000 ∧
      sampleToTime [(3, 1000), (2, 500)] 3 = 3000 ∧
      sampleToTime [(3, 1000), (2, 500)] 4 = 3500 :=
  ⟨sampleToTime_runSum [(3, 1000), (2, 500)] 4 (by decide) (by decide),
    by decide, by decide, by decide, by decide⟩

/-- C10: `sampleToTime` is total beyond its documented precondition: for any
index at or past the total sample count it returns the table's full decode
duration, the sum of `count_i * delta_i` over all runs. -/
theorem sampleToTime_total_beyond (entries : List (Nat × Nat)) (n : Nat)
    (hfit : ∀ e ∈ entries, e.1 * e.2 < 2 ^ 32)
    (hn : totalCount entries ≤ n) :
    sampleToTime entries n = totalDuration entries := by
  have h1 := sttsLoop_eq_specDecodeTime entries n 0 hfit
  have h2 := specDecodeTime_of_total_le entries n hn
  simp [sampleToTime, h1, h2]

/-- Witness for C10: the example table `{(3,1000),(2,500)}` holds 5 samples;
at `n = 7` the code returns the total duration 4000. -/
theorem sampleToTime_total_beyond_witness :
    sampleToTime [(3, 1000), (2, 500)] 7 = totalDuration [(3, 1000), (2, 500)] ∧
      sampleToTime [(3, 1000), (2, 500)] 7 = 4000 :=
  ⟨sampleToTime_total_beyond [(3, 1000), (2, 500)] 7 (by decide) (by decide),
    by decide⟩

theorem stscLoop_go (rest : List (Nat × Nat)) :
    ∀ f s n ofs ch lch lspc,
      ascendingRuns ((f, s) :: rest) = true → 1 ≤ f →
      ofs + (f - lch) * lspc ≤ n →
      ofs + (f - lch) * lspc + closedSpans ((f, s) :: rest) < 2 ^ 32 →
      1 + chunkOfSample ((f, s) :: rest) (n - (ofs + (f - lch) * lspc))
        < 2 ^ 32 →
      stscLoop ((f, s) :: rest) n ofs ch lch lspc
        = 1 + chunkOfSample ((f, s) :: rest) (n - (ofs + (f - lch) * lspc)) := by
  induction rest with
  | nil =>
    intro f s n ofs ch lch lspc _ hf hn hspan hfit
    simp only [closedSpans] at hspan
    simp only [chunkOfSample] at hfit ⊢
    simp only [stscLoop]
    rw [Nat.mod_eq_of_lt (show ofs + (f - lch) * lspc < 2 ^ 32 by omega)]
    rw [if_neg (by omega)]
    generalize (n - (ofs + (f - lch) * lspc)) / s = q at hfit ⊢
    omega
  | cons e rest ih =>
    intro f s n ofs ch lch lspc hasc hf hn hspan hfit
    obtain ⟨f', s'⟩ := e
    simp only [ascendingRuns, Bool.and_eq_true, decide_eq_true_eq] at hasc
    obtain ⟨hff', hasc'⟩ := hasc
    simp only [closedSpans] at hspan
    rw [stscLoop]
    rw [Nat.mod_eq_of_lt (show ofs + (f - lch) * lspc < 2 ^ 32 by omega)]
    rw [if_neg (by omega)]
    by_cases hcase : n < ofs + (f - lch) * lspc + (f' - f) * s
    · rw [stscLoop]
      rw [Nat.mod_eq_of_lt
        (show ofs + (f - lch) * lspc + (f' - f) * s < 2 ^ 32 by omega)]
      rw [if_pos hcase]
      simp only [chunkOfSample]
      rw [if_pos (by omega)]
      have hfit' := hfit
      simp only [chunkOfSample] at hfit'
      rw [if_pos (by omega)] at hfit'
      generalize (n - (ofs + (f - lch) * lspc)) / s = q at hfit' ⊢
      omega
    · have heq : n - (ofs + (f - lch) * lspc) - (f' - f) * s
          = n - (ofs + (f - lch) * lspc + (f' - f) * s) := by omega
      have hfit2 : 1 + chunkOfSample ((f', s') :: rest)
          (n - (ofs + (f - lch) * lspc + (f' - f) * s)) < 2 ^ 32 := by
        have h := hfit
        simp only [chunkOfSample] at h
        rw [if_neg (by omega), heq] at h
        exact h
      rw [ih f' s' n (ofs + (f - lch) * lspc)
        ((f + (n - (ofs + (f - lch) * lspc)) / s) % 2 ^ 32) f s hasc'
        (by omega) (by omega) (by omega) hfit2]
      simp only [chunkOfSample]
      rw [if_neg (by omega), heq]

/-- C1 amended: for every chunk-run table whose runs are ascending with the
first run beginning at chunk 1, positive samples-per-chunk, and whose
arithmetic stays within `uint32_t` — the samples covered by the closed runs
total below `2 ^ 32` (else the source's `ofs` accumulator wraps) and the
1-based number of the chunk containing `n` is below `2 ^ 32` —
`sampleToChunk n` is the 0-based index of the chunk containing sample `n`
under run-length semantics (`chunkOfSample`). -/
theorem sampleToChunk_runLength (s0 : Nat) (rest : List (Nat × Nat)) (n : Nat)
    (hasc : ascendingRuns ((1, s0) :: rest) = true)
    (hpos : ∀ e ∈ (1, s0) :: rest, 0 < e.2)
    (hspan : closedSpans ((1, s0) :: rest) < 2 ^ 32)
    (hfit : 1 + chunkOfSample ((1, s0) :: rest) n < 2 ^ 32) :
    sampleToChunk ((1, s0) :: rest) n = chunkOfSample ((1, s0) :: rest) n := by
  have e : n - (0 + (1 - 1) * 1) = n := rfl
  have h := stscLoop_go rest 1 s0 n 0 1 1 1 hasc (le_refl 1) (by omega)
    (by omega) (by rw [e]; exact hfit)
  unfold sampleToChunk
  rw [h, e]
  omega

/-- C1 counterexample: the table `{(1, 2^30), (5, 2^30)}` satisfies the
claim's hypotheses (ascending runs, first run at chunk 1, positive
samples-per-chunk), but run 0 spans 4 chunks of `2^30` samples — `2^32`
samples in all, wrapping the source's `uint32_t` accumulator `ofs` to 0 — so
for sample 1000 (which lies in chunk 0) the code returns chunk 4 while the
claimed run-length semantics give chunk 0. -/
theorem sampleToChunk_wrap_cex :
    ascendingRuns [(1, 2 ^ 30), (5, 2 ^ 30)] = true ∧
      (∀ e ∈ [(1, 2 ^ 30), (5, 2 ^ 30)], 0 < e.2) ∧
      sampleToChunk [(1, 2 ^ 30), (5, 2 ^ 30)] 1000 = 4 ∧
      chunkOfSample [(1, 2 ^ 30), (5, 2 ^ 30)] 1000 = 0 ∧
      (4 : Nat) ≠ 0 := by decide

/-- Witness for C1's amended theorem at the specification's example,
chunk-run `{(1,4)}`: the hypotheses hold (closed spans 0, chunk numbers tiny),
the general theorem applies, and `sampleToChunk` maps samples 0..3 to chunk 0
and samples 4..7 to chunk 1. -/
theorem sampleToChunk_runLength_witness :
    sampleToChunk [(1, 4)] 3 = chunkOfSample [(1, 4)] 3 ∧
      sampleToChunk [(1, 4)] 0 = 0 ∧ sampleToChunk [(1, 4)] 3 = 0 ∧
      sampleToChunk [(1, 4)] 4 = 1 ∧ sampleToChunk [(1, 4)] 7 = 1 :=
  ⟨sampleToChunk_runLength 4 [] 3 (by decide) (by decide) (by decide)
      (by decide),
    by decide, by decide, by decide, by decide⟩

/-- C2 counterexample: inside the demo container, the mvhd child starts at
offset 8 with declared size 32, but because `BoxMVHD::parse` returns early on
version 1 and the traversal performs no per-child reseek, the cursor after
the child decode is 20, not `8 + 32`; the container loop reads its next
header at 20 — inside the mvhd box (where the payload happens to spell a
well-formed "free" box spanning 20..39, so the misaligned traversal proceeds
without aborting) — and then at 40, each header read landing where the
previous child's decoder left the cursor, not at `box_start + size` of the
mvhd. -/
theorem boxChild_cursor_cex :
    createBoxEnd BOX_MVHD mvhdV1Demo 8 32 = some 20 ∧ (20 : Nat) ≠ 8 + 32 ∧
      childHeaderStarts mvhdV1Demo 10 8 48 = [8, 20, 40] := by decide

/-- C2 amended: the cursor lands at `box_start + declared_size` after every
child decode that completes normally — any type whose declared size is at
least 8 (at least 12 for the `FullBufBox` leaves, 16 for ftyp, 36 for mvhd —
below these the decoder's wrapped `size_t` arithmetic aborts the parse
instead of returning), with the movie header further requiring version 0,
since `BoxMVHD::parse` returns early on any other version, leaving the
cursor at `box_start + 12`; the repositioning is per-decoder exact
consumption, not a traversal-level seek. -/
theorem createBoxEnd_at_declared_size (t d : List Nat) (start sz : Nat)
    (hsz : 8 ≤ sz)
    (hfb : isFullBufType t = true → 12 ≤ sz)
    (hmv : t = BOX_MVHD → byteAt d (start + 8) = 0 ∧ 36 ≤ sz)
    (hft : t = BOX_FTYP → 16 ≤ sz) :
    createBoxEnd t d start sz = some (start + sz) := by
  unfold createBoxEnd
  by_cases h1 : t = BOX_FTYP
  · rw [if_pos h1, if_pos (hft h1)]
    simp only [Option.some.injEq]
    omega
  · rw [if_neg h1]
    by_cases h2 : t = BOX_FREE
    · rw [if_pos h2, if_pos hsz]
      simp only [Option.some.injEq]
      omega
    · rw [if_neg h2]
      by_cases h3 : t = BOX_MVHD
      · have h36 := (hmv h3).2
        rw [if_pos h3, if_pos (hmv h3).1, if_pos h36]
        simp only [Option.some.injEq]
        omega
      · rw [if_neg h3]
        by_cases h4 : isFullBufType t = true
        · have h12 := hfb h4
          rw [if_pos h4, if_pos h12]
          simp only [Option.some.injEq]
          omega
        · rw [if_neg h4]
          by_cases h5 : has_child t = true
          · rw [if_pos h5, if_pos hsz]
            simp only [Option.some.injEq]
            omega
          · rw [if_neg h5]
            by_cases h6 : 1024 * 1024 * 10 < sz
            · rw [if_pos h6]
              simp only [Option.some.injEq]
              omega
            · rw [if_neg h6, if_pos hsz]
              simp only [Option.some.injEq]
              omega

/-- Witness for C2's amended theorem: a chunk-offset (stco) leaf of declared
size 16 ends with the cursor at its box start plus 16. -/
theorem createBoxEnd_at_declared_size_witness :
    createBoxEnd BOX_STCO [] 0 16 = some (0 + 16) :=
  createBoxEnd_at_declared_size BOX_STCO [] 0 16 (by decide) (by decide)
    (by decide) (by decide)

/-- C4 counterexample: a sample that is exactly one 5-byte unit (4-byte length
1, then the single IDR byte 0x65, type 5).  Under the claim's "5 or more bytes
remain" rule the unit is scanned and the sample is sync; the source's guard
`p + 5 < buf.size()` skips it and classifies the sample as not sync. -/
theorem nalScan_five_byte_cex :
    nalScan [0, 0, 0, 1, 101] 0 = false ∧
      nalScanSpec [0, 0, 0, 1, 101] 0 = true ∧
      byteAt [0, 0, 0, 1, 101] 4 % 32 = 5 := by
  refine ⟨?_, ?_, by decide⟩
  · rw [nalScan]
    simp
  · rw [nalScanSpec]
    norm_num
    rw [show byteAt [0, 0, 0, 1, 101] 4 = 101 from rfl]
    simp

/-- C4 amended: the classifier reads a unit whenever strictly more than 5
bytes remain at the cursor (4-byte length plus at least 2 further bytes),
classifies it as `payload[4] & 0x1f`, advances by `length + 4`, stops without
error otherwise, and flags the sample as sync if and only if some unit so
scanned has type 5. -/
theorem nalScan_iff_idr (buf : List Nat) (p : Nat) :
    nalScan buf p = true ↔ 5 ∈ nalUnitTypes buf p := by
  have key : ∀ k q, buf.length - q ≤ k →
      (nalScan buf q = true ↔ 5 ∈ nalUnitTypes buf q) := by
    intro k
    induction k with
    | zero =>
      intro q hq
      have hc : ¬ q + 5 < buf.length := by omega
      rw [nalScan, nalUnitTypes, dif_neg hc, dif_neg hc]
      simp
    | succ k ih =>
      intro q hq
      by_cases hc : q + 5 < buf.length
      · rw [nalScan, nalUnitTypes, dif_pos hc, dif_pos hc]
        simp only [Bool.or_eq_true, beq_iff_eq, List.mem_cons]
        rw [ih (q + be32At buf q + 4) (by omega)]
        tauto
      · rw [nalScan, nalUnitTypes, dif_neg hc, dif_neg hc]
        simp
  exact key (buf.length - p) p le_rfl

/-- C5: with a 4-byte codec configuration and two samples of 5 and 7 bytes,
the sequence-header tag is 20 bytes long but its trailer is 33 — `prev` is
never set to the position after the initial zero previous-tag size, so the
first trailer also counts the 9-byte FLV header and that 4-byte zero; every
later (sample) trailer does equal its tag's length. -/
theorem flv_first_backptr_bug :
    remuxTagRecords 4 [5, 7] = [(20, 33), (21, 21), (23, 23)] ∧
      (33 : Nat) ≠ 20 := by decide

/-- C6: on the uniform table the pipeline's length for sample 0 is read at
payload offset 8, past the 8-byte payload (an out-of-bounds `std::vector`
read in the source; 0 in this model), instead of the constant size 10. -/
theorem stsz_uniform_read_bug :
    sampleLength stszUniformDemo 0 = 0 ∧
      stszConstantSize stszUniformDemo = 10 ∧
      stszUniformDemo.length ≤ 8 + 0 * 4 ∧
      sampleLength stszUniformDemo 0 ≠ stszConstantSize stszUniformDemo := by
  decide

/-- C7: for the version-1 payload whose stored 64-bit duration is
`(1 << 32) | 2 = 4294967298`, `duration()` returns `1 ||| 2 = 3`: the high
word is or-ed in unshifted, so the claimed `(high << 32) | low` read fails. -/
theorem mdhd_v1_duration_bug :
    mdhdDuration 1 mdhdV1DurDemo = 3 ∧
      be32At mdhdV1DurDemo 20 * 2 ^ 32 + be32At mdhdV1DurDemo 24 = 4294967298 ∧
      (3 : Nat) ≠ 4294967298 := by decide

/-- C9: writing an opaque-skipped 20 MB mdat node completes silently having
emitted zero bytes in the box's place — no distinct error condition exists in
the code path. -/
theorem unknownBoxRef_write_silent :
    unknownBoxRefWrite 20000000 BOX_MDAT 8 = [] ∧
      (unknownBoxRefWrite 20000000 BOX_MDAT 8).length = 0 ∧
      (0 : Nat) ≠ 20000000 := by decide

theorem unknown_roundTrip (sz t0 t1 t2 t3 : Nat) (p : List Nat)
    (hsz : sz < 2 ^ 32) (h8 : 8 ≤ sz) (hp : p.length = sz - 8) :
    unknownDecodeThenWrite (write32 sz ++ [t0, t1, t2, t3] ++ p)
      = write32 sz ++ [t0, t1, t2, t3] ++ p := by
  have hbe : be32At (write32 sz ++ [t0, t1, t2, t3] ++ p) 0 = sz := by
    simp [be32At, byteAt, write32]
    omega
  have hpt : p.take (sz - 8) = p := List.take_of_length_le (by omega)
  by_cases hc : 8 < sz
  · simp only [unknownDecodeThenWrite, hbe]
    rw [if_pos hc]
    simp [write32, hpt]
  · have hp0 : p = [] := List.length_eq_zero.mp (by omega)
    subst hp0
    simp only [unknownDecodeThenWrite, hbe]
    rw [if_neg hc]
    simp [write32]

theorem fullBuf_roundTrip (sz u0 u1 u2 u3 v f0 f1 f2 : Nat) (p : List Nat)
    (hsz : sz < 2 ^ 32) (h12 : 12 ≤ sz) (hp : p.length = sz - 12)
    (hf0 : f0 < 256) (hf1 : f1 < 256) (hf2 : f2 < 256) :
    fullBufDecodeThenWrite
        (write32 sz ++ [u0, u1, u2, u3, v, f0, f1, f2] ++ p)
      = write32 sz ++ [u0, u1, u2, u3, v, f0, f1, f2] ++ p := by
  have hbe : be32At (write32 sz ++ [u0, u1, u2, u3, v, f0, f1, f2] ++ p) 0
      = sz := by
    simp [be32At, byteAt, write32]
    omega
  have h24 : be24At (write32 sz ++ [u0, u1, u2, u3, v, f0, f1, f2] ++ p) 9
      = f0 * 2 ^ 16 + f1 * 2 ^ 8 + f2 := by
    simp [be24At, byteAt, write32]
  have hw24 : write24 (f0 * 2 ^ 16 + f1 * 2 ^ 8 + f2) = [f0, f1, f2] := by
    simp only [write24, List.cons.injEq, and_true]
    omega
  have hpt : p.take (sz - 12) = p := List.take_of_length_le (by omega)
  have hc : 8 < sz := by omega
  simp only [fullBufDecodeThenWrite, hbe, h24, hw24]
  rw [if_pos hc]
  simp [write32, hpt, byteAt]

theorem ftyp_roundTrip (sz w0 w1 w2 w3 m0 m1 m2 m3 mn : Nat) (p : List Nat)
    (hsz : sz < 2 ^ 32) (h16 : 16 ≤ sz) (halign : (sz - 16) % 4 = 0)
    (hp : p.length = sz - 16) (hmn : mn < 2 ^ 32) :
    ftypDecodeThenWrite
        (write32 sz ++ [w0, w1, w2, w3, m0, m1, m2, m3] ++ write32 mn ++ p)
      = write32 sz ++ [w0, w1, w2, w3, m0, m1, m2, m3] ++ write32 mn ++ p := by
  have hbe : be32At
      (write32 sz ++ [w0, w1, w2, w3, m0, m1, m2, m3] ++ write32 mn ++ p) 0
      = sz := by
    simp [be32At, byteAt, write32]
    omega
  have hmn32 : be32At
      (write32 sz ++ [w0, w1, w2, w3, m0, m1, m2, m3] ++ write32 mn ++ p) 12
      = mn := by
    simp [be32At, byteAt, write32]
    omega
  have h4 : 4 * ((sz - 16) / 4) = sz - 16 := by omega
  have hpt : p.take (sz - 16) = p := List.take_of_length_le (by omega)
  simp only [ftypDecodeThenWrite, hbe, hmn32, h4]
  simp [write32, hpt]

/-- C8 counterexample: re-emitting the decoded 18-byte ftyp box produces only
16 bytes — `BoxFTYP::parse` keeps `(18 - 16) / 4 = 0` compatibility entries,
so the two trailing payload bytes are dropped and the write is not the
original byte sequence. -/
theorem ftyp_roundtrip_cex :
    ftypDecodeThenWrite ftyp18Demo ≠ ftyp18Demo ∧
      (ftypDecodeThenWrite ftyp18Demo).length = 16 ∧
      ftyp18Demo.length = 18 := by decide

/-- C8 amended: write-after-decode reproduces the original bytes exactly for
an opaque-preserved unknown box (any declared size ≥ 8), for a `FullBufBox`
leaf (declared size ≥ 12), and for a file-type box whose payload past the
fixed 16 bytes is a whole number of 4-byte compatibility entries
(`(size - 16) % 4 = 0`); for a file-type box violating that alignment the
trailing bytes are dropped (see the counterexample). -/
theorem decodeWrite_roundTrip
    (szU t0 t1 t2 t3 : Nat) (pU : List Nat)
    (szF u0 u1 u2 u3 v f0 f1 f2 : Nat) (pF : List Nat)
    (szT w0 w1 w2 w3 m0 m1 m2 m3 mn : Nat) (pT : List Nat)
    (hU1 : szU < 2 ^ 32) (hU2 : 8 ≤ szU) (hU3 : pU.length = szU - 8)
    (hF1 : szF < 2 ^ 32) (hF2 : 12 ≤ szF) (hF3 : pF.length = szF - 12)
    (hF4 : f0 < 256) (hF5 : f1 < 256) (hF6 : f2 < 256)
    (hT1 : szT < 2 ^ 32) (hT2 : 16 ≤ szT) (hT3 : (szT - 16) % 4 = 0)
    (hT4 : pT.length = szT - 16) (hT5 : mn < 2 ^ 32) :
    unknownDecodeThenWrite (write32 szU ++ [t0, t1, t2, t3] ++ pU)
        = write32 szU ++ [t0, t1, t2, t3] ++ pU ∧
      fullBufDecodeThenWrite
          (write32 szF ++ [u0, u1, u2, u3, v, f0, f1, f2] ++ pF)
        = write32 szF ++ [u0, u1, u2, u3, v, f0, f1, f2] ++ pF ∧
      ftypDecodeThenWrite
          (write32 szT ++ [w0, w1, w2, w3, m0, m1, m2, m3] ++ write32 mn ++ pT)
        = write32 szT ++ [w0, w1, w2, w3, m0, m1, m2, m3] ++ write32 mn ++ pT :=
  ⟨unknown_roundTrip szU t0 t1 t2 t3 pU hU1 hU2 hU3,
    fullBuf_roundTrip szF u0 u1 u2 u3 v f0 f1 f2 pF hF1 hF2 hF3 hF4 hF5 hF6,
    ftyp_roundTrip szT w0 w1 w2 w3 m0 m1 m2 m3 mn pT hT1 hT2 hT3 hT4 hT5⟩

/-- Witness for C8's amended theorem: a 9-byte unknown box, a 12-byte mdhd
leaf and a 20-byte ftyp box (one compatibility entry) all round trip. -/
theorem decodeWrite_roundTrip_witness :
    unknownDecodeThenWrite (write32 9 ++ [97, 98, 99, 100] ++ [7])
        = write32 9 ++ [97, 98, 99, 100] ++ [7] ∧
      fullBufDecodeThenWrite
          (write32 12 ++ [109, 100, 104, 100, 0, 0, 0, 0] ++ [])
        = write32 12 ++ [109, 100, 104, 100, 0, 0, 0, 0] ++ [] ∧
      ftypDecodeThenWrite
          (write32 20 ++ [102, 116, 121, 112, 109, 112, 52, 50] ++ write32 1 ++
            [9, 9, 9, 9])
        = write32 20 ++ [102, 116, 121, 112, 109, 112, 52, 50] ++ write32 1 ++
            [9, 9, 9, 9] :=
  decodeWrite_roundTrip 9 97 98 99 100 [7] 12 109 100 104 100 0 0 0 0 []
    20 102 116 121 112 109 112 52 50 1 [9, 9, 9, 9]
    (by decide) (by decide) (by decide) (by decide) (by decide) (by decide)
    (by decide) (by decide) (by decide) (by decide) (by decide) (by decide)
    (by decide) (by decide)
